import Mathlib

/-!
# Verification of the dispatch core of the sende-gel backend

Shallow embedding of `src/server.js` (the matcher / offer / acceptance
path) together with proofs about it.

Modelling conventions:
* Timestamps (`Date` values) are integers (epoch milliseconds).
* Database ids (Postgres `SERIAL`) are `Nat`; JavaScript truthiness tests
  on id columns (`if (ride.driverId)`, `if (!payload.driverId)`) are
  modelled by `jsIdTruthy`, which is false for `null` and for `0`.
* Coordinates and distances are integers; the haversine function
  `distanceKm` is floating-point in the source, so the distance function
  is abstracted as a parameter `dist` of the candidate-selection code.
* The Prisma store is a quadruple of lists plus the `SERIAL` counter for
  offer ids; `update` on a unique key is `updateFirst`, `updateMany` is a
  guarded `List.map`, `findUnique` / `findFirst` are `List.find?`.
-/

/-- Ride lifecycle statuses (enum `RideStatus` of the Prisma schema). -/
inductive RideStatus
  | OPEN
  | SEARCHING
  | ACCEPTED
  | ARRIVING
  | IN_PROGRESS
  | COMPLETED
  | CANCELED
  | FAILED
  deriving DecidableEq, Repr

/-- Offer statuses (enum `OfferStatus` of the Prisma schema). -/
inductive OfferStatus
  | SENT
  | ACCEPTED
  | REJECTED
  | EXPIRED
  deriving DecidableEq, Repr

/-- Driver availability (enum `DriverAvailability` of the Prisma schema). -/
inductive Availability
  | OFFLINE
  | ONLINE
  | BUSY
  deriving DecidableEq, Repr

/-- A row of the `Driver` table (the columns the dispatch core reads). -/
structure Driver where
  id : Nat
  availability : Availability
  isOnline : Bool
  lat : Option Int
  lng : Option Int
  deriving DecidableEq, Repr

/-- A row of the `RideRequest` table.  `driverId` is what the spec calls
`assignedDriverId`; `expiresAt` is what the spec calls `phaseExpiresAt`. -/
structure RideRequest where
  id : Nat
  customerId : Nat
  driverId : Option Nat
  pickupLat : Option Int
  pickupLng : Option Int
  status : RideStatus
  phase : Nat
  searchRadiusKm : Int
  expiresAt : Option Int
  deriving DecidableEq, Repr

/-- A row of the `RideOffer` table. -/
structure RideOffer where
  id : Nat
  rideRequestId : Nat
  driverId : Nat
  status : OfferStatus
  sentAt : Int
  expiresAt : Int
  acceptedAt : Option Int
  deriving DecidableEq, Repr

/-- The Prisma store: the three tables the dispatch core touches plus the
`SERIAL` counter that numbers new `RideOffer` rows. -/
structure DB where
  drivers : List Driver
  rides : List RideRequest
  offers : List RideOffer
  nextOfferId : Nat
  deriving DecidableEq, Repr

/-- JavaScript truthiness of an id column: `null` and `0` are falsy
(Postgres `SERIAL` ids start at 1, so `0` never occurs in practice). -/
def jsIdTruthy : Option Nat → Bool
  | none => false
  | some n => n != 0

@[simp] theorem jsIdTruthy_none : jsIdTruthy none = false := rfl

@[simp] theorem jsIdTruthy_some (n : Nat) : jsIdTruthy (some n) = (n != 0) := rfl

/-- Prisma `update` on a unique key: rewrite the first row matched by `p`
with `g` and keep everything else. -/
def updateFirst (p : α → Bool) (g : α → α) : List α → List α
  | [] => []
  | x :: xs => if p x then g x :: xs else x :: updateFirst p g xs

/-- `expireOldOffers(rideRequestId)` (server.js:385): mark every `SENT`
offer of the ride whose `expiresAt ≤ now` as `EXPIRED`. -/
def expireOldOffers (db : DB) (rideRequestId : Nat) (now : Int) : DB :=
  { db with
    offers := db.offers.map fun o =>
      if o.rideRequestId = rideRequestId ∧ o.status = .SENT ∧ o.expiresAt ≤ now then
        { o with status := .EXPIRED }
      else o }

/-- The per-driver sweep at the top of `GET /drivers/offers`
(server.js:638): expire the caller's `SENT` offers past their deadline. -/
def sweepDriverOffers (db : DB) (driverId : Nat) (now : Int) : DB :=
  { db with
    offers := db.offers.map fun o =>
      if o.driverId = driverId ∧ o.status = .SENT ∧ o.expiresAt ≤ now then
        { o with status := .EXPIRED }
      else o }

/-- A fresh `RideOffer` row as `createMany` inserts it (server.js:426):
status `SENT`, `sentAt` defaulted to the current timestamp. -/
def newOffer (id rideRequestId driverId : Nat) (sentAt expiresAt : Int) : RideOffer :=
  { id := id, rideRequestId := rideRequestId, driverId := driverId,
    status := .SENT, sentAt := sentAt, expiresAt := expiresAt, acceptedAt := none }

/-- `rideOffer.createMany({data, skipDuplicates: true})`: insert one row
per chosen driver in order, skipping a row whenever the unique key
`(rideRequestId, driverId)` already exists (also against rows inserted
earlier in the same batch).  Returns the new offer table, the next value
of the id sequence, and the number of rows actually inserted. -/
def createOffersAux (rideRequestId : Nat) (sentAt expAt : Int) :
    List Driver → List RideOffer → Nat → List RideOffer × Nat × Nat
  | [], offers, next => (offers, next, 0)
  | d :: ds, offers, next =>
    if offers.any fun o => decide (o.rideRequestId = rideRequestId ∧ o.driverId = d.id) then
      createOffersAux rideRequestId sentAt expAt ds offers next
    else
      let r := createOffersAux rideRequestId sentAt expAt ds
        (offers ++ [newOffer next rideRequestId d.id sentAt expAt]) (next + 1)
      (r.1, r.2.1, r.2.2 + 1)

/-- The candidate query of `createOffersForRide` (server.js:402): drivers
with `availability = ONLINE` or (legacy flag) `isOnline = true`. -/
def candidateDrivers (db : DB) : List Driver :=
  db.drivers.filter fun d => decide (d.availability = .ONLINE) || d.isOnline

/-- The radius filter of `createOffersForRide` (server.js:415): when the
ride has pickup coordinates keep only candidates with a stored location
within `radiusKm`; otherwise all candidates are kept.  `dist` abstracts
the floating-point haversine `distanceKm` of the source. -/
def chosenDrivers (dist : Int → Int → Int → Int → Int) (db : DB) (ride : RideRequest)
    (radiusKm : Int) : List Driver :=
  match ride.pickupLat, ride.pickupLng with
  | some plat, some plng =>
    (candidateDrivers db).filter fun d =>
      match d.lat, d.lng with
      | some la, some ln => decide (dist plat plng la ln ≤ radiusKm)
      | _, _ => false
  | _, _ => candidateDrivers db

/-- `createOffersForRide` (server.js:397): compute the phase deadline,
select drivers, and if any were chosen insert their offers
(duplicates skipped) and stamp the ride `SEARCHING` with the search
radius and deadline.  Returns the new store, the created count and the
deadline. -/
def createOffersForRide (dist : Int → Int → Int → Int → Int) (db : DB) (ride : RideRequest)
    (radiusKm ttlSeconds now : Int) : DB × Nat × Int :=
  let expAt := now + ttlSeconds * 1000
  let chosen := chosenDrivers dist db ride radiusKm
  if chosen.isEmpty then (db, 0, expAt)
  else
    let r := createOffersAux ride.id now expAt chosen db.offers db.nextOfferId
    let rides1 := updateFirst (fun x => decide (x.id = ride.id))
      (fun x => { x with status := .SEARCHING, searchRadiusKm := radiusKm,
                         expiresAt := some expAt }) db.rides
    ({ db with offers := r.1, nextOfferId := r.2.1, rides := rides1 }, r.2.2, expAt)

/-- The radius/TTL table of `runPhase` (server.js:473): defaults `5 km /
15 s`, then per-phase overrides. -/
def phaseParams (phase : Nat) : Int × Int :=
  let p0 : Int × Int := (5, 15)
  let p1 := if phase = 1 then ((5 : Int), (15 : Int)) else p0
  let p2 := if phase = 2 then ((5 : Int), (7 : Int)) else p1
  if phase = 3 then ((10 : Int), (12 : Int)) else p2

/-- The "already finished" status list of `runPhase` (server.js:469). -/
def donePhaseStatuses : List RideStatus :=
  [.ACCEPTED, .ARRIVING, .IN_PROGRESS, .COMPLETED, .CANCELED, .FAILED]

/-- The "already finished" status list of the phase-end callback
(server.js:515) — note the source omits `FAILED` here. -/
def timeoutDoneStatuses : List RideStatus :=
  [.ACCEPTED, .ARRIVING, .IN_PROGRESS, .COMPLETED, .CANCELED]

/-- `rideRequest.update({data: {phase}})` inside `runPhase`
(server.js:481). -/
def writeRidePhase (db : DB) (rideRequestId phase : Nat) : DB :=
  { db with rides := (updateFirst (fun r => decide (r.id = rideRequestId))
      (fun r => { r with phase := phase }) db.rides) }

/-- `rideRequest.update({data: {status: FAILED, expiresAt: null}})`
(server.js:497 and 520). -/
def failRide (db : DB) (rideRequestId : Nat) : DB :=
  { db with rides := (updateFirst (fun r => decide (r.id = rideRequestId))
      (fun r => { r with status := .FAILED, expiresAt := none }) db.rides) }

/-- `runPhase` (server.js:457): sweep expired offers, reload the ride,
stop if it is gone / assigned / finished, record the phase, create the
phase's offers, and on a zero created count either advance immediately to
the next phase or mark the ride `FAILED`.  The armed phase-end timer of
the non-zero branch is a separate operation (`phaseTimeout`). -/
def runPhase (dist : Int → Int → Int → Int → Int) (db : DB) (rideRequestId phase : Nat)
    (now : Int) : DB :=
  let db1 := expireOldOffers db rideRequestId now
  match db1.rides.find? (fun r => decide (r.id = rideRequestId)) with
  | none => db1
  | some ride =>
    if jsIdTruthy ride.driverId ∨ ride.status ∈ donePhaseStatuses then db1
    else
      let params := phaseParams phase
      let db2 := writeRidePhase db1 rideRequestId phase
      let res := createOffersForRide dist db2 ride params.1 params.2 now
      if res.2.1 = 0 then
        if h : phase < 3 then runPhase dist res.1 rideRequestId (phase + 1) now
        else failRide res.1 rideRequestId
      else res.1
termination_by 3 - phase
decreasing_by omega

/-- `runRideSearch` (server.js:452): start at phase 1. -/
def runRideSearch (dist : Int → Int → Int → Int → Int) (db : DB) (rideRequestId : Nat)
    (now : Int) : DB :=
  runPhase dist db rideRequestId 1 now

/-- The `setTimeout` phase-end callback of `runPhase` (server.js:505):
sweep, reload, stop when assigned or in `timeoutDoneStatuses`, and
otherwise advance to the next phase or mark the ride `FAILED`. -/
def phaseTimeout (dist : Int → Int → Int → Int → Int) (db : DB) (rideRequestId phase : Nat)
    (now : Int) : DB :=
  let db1 := expireOldOffers db rideRequestId now
  match db1.rides.find? (fun r => decide (r.id = rideRequestId)) with
  | none => db1
  | some latest =>
    if jsIdTruthy latest.driverId ∨ latest.status ∈ timeoutDoneStatuses then db1
    else if phase < 3 then runPhase dist db1 rideRequestId (phase + 1) now
    else failRide db1 rideRequestId

/-- Outcome of `POST /drivers/offers/:offerId/accept`. -/
inductive AcceptResult
  | accepted (ride? : Option RideRequest)
  | notFound
  | conflict
  | serverError
  deriving DecidableEq, Repr

/-- The non-dispatchable status list of the accept transaction
(server.js:701). -/
def rideNotDispatchable : List RideStatus := [.FAILED, .CANCELED, .COMPLETED]

/-- The `$transaction` of `POST /drivers/offers/:offerId/accept`
(server.js:683-735).  `tx.driver.update` would throw (rolling the whole
transaction back to a 500) if the caller's driver row were missing, so
that existence check is performed up front with the store unchanged on
failure. -/
def acceptOffer (db : DB) (callerDriverId offerId : Nat) (now : Int) : AcceptResult × DB :=
  match db.offers.find? (fun o => decide (o.id = offerId ∧ o.driverId = callerDriverId)) with
  | none => (.notFound, db)
  | some offer =>
    if offer.status ≠ .SENT then (.conflict, db)
    else if offer.expiresAt ≤ now then
      (.conflict, { db with offers := (updateFirst (fun o => decide (o.id = offerId))
          (fun o => { o with status := .EXPIRED }) db.offers) })
    else
      match db.rides.find? (fun r => decide (r.id = offer.rideRequestId)) with
      | none => (.notFound, db)
      | some ride =>
        if jsIdTruthy ride.driverId then (.conflict, db)
        else if ride.status ∈ rideNotDispatchable then (.conflict, db)
        else if db.drivers.any (fun d => decide (d.id = callerDriverId)) then
          let rides1 := updateFirst (fun r => decide (r.id = ride.id))
            (fun r => { r with driverId := some callerDriverId, status := .ACCEPTED,
                               expiresAt := none }) db.rides
          let offers1 := updateFirst (fun o => decide (o.id = offerId))
            (fun o => { o with status := .ACCEPTED, acceptedAt := some now }) db.offers
          let offers2 := offers1.map fun o =>
            if o.rideRequestId = ride.id ∧ o.status = .SENT then { o with status := .EXPIRED }
            else o
          let drivers1 := updateFirst (fun d => decide (d.id = callerDriverId))
            (fun d => { d with availability := .BUSY, isOnline := true }) db.drivers
          let db' : DB := { db with rides := rides1, offers := offers2, drivers := drivers1 }
          (.accepted (db'.rides.find? (fun r => decide (r.id = ride.id))), db')
        else (.serverError, db)

/-- Outcome of `POST /drivers/availability`. -/
inductive AvailabilityResult
  | ok (driver? : Option Driver)
  | badRequest
  | serverError
  deriving DecidableEq, Repr

/-- `POST /drivers/availability` (server.js:302).  `availability` models
the request field after the `ONLINE/BUSY/OFFLINE` string validation (an
invalid string is a 400 before any store access); a missing driver row
makes `driver.update` throw, a 500 with the store unchanged. -/
def setAvailability (db : DB) (driverId : Nat) (availability : Option Availability)
    (isOnline : Option Bool) : AvailabilityResult × DB :=
  let nextAvailability : Option Availability :=
    match availability with
    | some v => some v
    | none =>
      match isOnline with
      | some b => some (if b then .ONLINE else .OFFLINE)
      | none => none
  match nextAvailability with
  | none => (.badRequest, db)
  | some v =>
    if db.drivers.any (fun d => decide (d.id = driverId)) then
      let drivers1 := updateFirst (fun d => decide (d.id = driverId))
        (fun d => { d with availability := v, isOnline := decide (v = .ONLINE) }) db.drivers
      (.ok (drivers1.find? (fun d => decide (d.id = driverId))), { db with drivers := drivers1 })
    else (.serverError, db)

/-- Outcome of `POST /rides/status`. -/
inductive StatusUpdateResult
  | ok (ride? : Option RideRequest)
  | badRequest
  | forbidden
  deriving DecidableEq, Repr

/-- The status whitelist of `POST /rides/status` (server.js:119): every
member of the enum is allowed. -/
def ALLOWED_RIDE_STATUS : List RideStatus :=
  [.OPEN, .SEARCHING, .ACCEPTED, .ARRIVING, .IN_PROGRESS, .COMPLETED, .CANCELED, .FAILED]

/-- `POST /rides/status` (server.js:766): after input validation, an
`updateMany` scoped to `{id: rideId, driverId: caller}`; zero updated
rows is a 403, otherwise the ride is re-read and returned.  When the
count is zero no row matched, so the store is unchanged. -/
def ridesStatusUpdate (db : DB) (callerDriverId rideId : Nat) (status : RideStatus) :
    StatusUpdateResult × DB :=
  if rideId = 0 then (.badRequest, db)
  else if status ∉ ALLOWED_RIDE_STATUS then (.badRequest, db)
  else
    let matched := db.rides.countP fun r => decide (r.id = rideId ∧ r.driverId = some callerDriverId)
    let rides1 := db.rides.map fun r =>
      if r.id = rideId ∧ r.driverId = some callerDriverId then { r with status := status } else r
    if matched = 0 then (.forbidden, db)
    else (.ok (rides1.find? (fun r => decide (r.id = rideId))), { db with rides := rides1 })

/-- Descending insertion by `sentAt` (models `orderBy: {sentAt: "desc"}`). -/
def insertBySentAtDesc (o : RideOffer) : List RideOffer → List RideOffer
  | [] => [o]
  | x :: xs => if x.sentAt < o.sentAt then o :: x :: xs else x :: insertBySentAtDesc o xs

/-- Insertion sort, newest `sentAt` first. -/
def sortBySentAtDesc : List RideOffer → List RideOffer
  | [] => []
  | x :: xs => insertBySentAtDesc x (sortBySentAtDesc xs)

/-- `GET /drivers/offers` (server.js:634): sweep the caller's expired
`SENT` offers, then return the caller's `SENT` offers with
`expiresAt > now`, newest `sentAt` first, at most 20. -/
def driversOffers (db : DB) (driverId : Nat) (now : Int) : List RideOffer × DB :=
  let db1 := sweepDriverOffers db driverId now
  let active := (sortBySentAtDesc (db1.offers.filter fun o =>
    decide (o.driverId = driverId ∧ o.status = .SENT ∧ now < o.expiresAt))).take 20
  (active, db1)

/-- Process startup, `app.listen(PORT, ...)` (server.js:815): the
callback only logs.  The source contains no startup reconciliation of
`SEARCHING` rides, so the store is untouched by a restart. -/
def startup (db : DB) : DB := db


/-!
## Operational model for the invariant claims

The dispatch operations that create, expire and accept offers, as a
step relation folded over operation lists, together with the inductive
invariant maintained by every step.
-/

def rideC4 : RideRequest :=
  ⟨1, 2, some 7, none, none, .COMPLETED, 1, 5, none⟩

def dbC4 : DB := ⟨[], [rideC4], [], 1⟩

def rideC7 : RideRequest := ⟨1, 2, none, none, none, .SEARCHING, 2, 5, some 0⟩

def offerC7 : RideOffer := ⟨1, 1, 9, .SENT, 0, 0, none⟩

def dbC7 : DB := ⟨[], [rideC7], [offerC7], 2⟩

def drvC8 : Driver := ⟨1, .BUSY, true, none, none⟩

def dbC8 : DB := ⟨[drvC8], [], [], 1⟩

def distC6 : Int → Int → Int → Int → Int := fun _ _ _ _ => 0

def drvC6 : Driver := ⟨1, .BUSY, true, some 0, some 0⟩

def rideC6 : RideRequest := ⟨1, 2, none, some 0, some 0, .SEARCHING, 1, 5, none⟩

def dbC6 : DB := ⟨[drvC6], [rideC6], [], 1⟩

def acceptedForRide (offers : List RideOffer) (rideRequestId : Nat) : Nat :=
  offers.countP fun o => decide (o.rideRequestId = rideRequestId ∧ o.status = .ACCEPTED)

def offersWF (db : DB) : Prop :=
  (db.offers.map (fun o => o.id)).Nodup ∧ ∀ o ∈ db.offers, o.id < db.nextOfferId

def rideTaken (db : DB) (rideRequestId : Nat) : Prop :=
  ∀ r : RideRequest, db.rides.find? (fun x => decide (x.id = rideRequestId)) = some r →
    jsIdTruthy r.driverId = true

def acceptedImpliesTaken (db : DB) : Prop :=
  ∀ o ∈ db.offers, o.status = .ACCEPTED → rideTaken db o.rideRequestId

def DispatchInv (db : DB) : Prop :=
  offersWF db ∧ acceptedImpliesTaken db ∧
    ∀ rideRequestId, acceptedForRide db.offers rideRequestId ≤ 1

inductive Op
  | sweep (rideRequestId : Nat) (now : Int)
  | poll (driverId : Nat) (now : Int)
  | phase (rideRequestId phaseNumber : Nat) (now : Int)
  | timeout (rideRequestId phaseNumber : Nat) (now : Int)
  | accept (driverId offerId : Nat) (now : Int)

def step (dist : Int → Int → Int → Int → Int) (db : DB) : Op → DB
  | .sweep rid now => expireOldOffers db rid now
  | .poll d now => (driversOffers db d now).2
  | .phase rid p now => runPhase dist db rid p now
  | .timeout rid p now => phaseTimeout dist db rid p now
  | .accept d oid now => if d = 0 then db else (acceptOffer db d oid now).2

def run (dist : Int → Int → Int → Int → Int) (db : DB) (ops : List Op) : DB :=
  ops.foldl (step dist) db

def distW : Int → Int → Int → Int → Int := fun _ _ _ _ => 0

def dbW : DB :=
  ⟨[⟨1, .ONLINE, true, some 0, some 0⟩],
    [⟨1, 5, none, some 0, some 0, .SEARCHING, 1, 5, none⟩], [], 1⟩

def opsW : List Op := [Op.phase 1 1 0, Op.accept 1 1 5]

def offerC3 : RideOffer := ⟨1, 1, 1, .EXPIRED, 0, 10, none⟩

def dbC3 : DB := ⟨[⟨1, .ONLINE, true, none, none⟩], [], [offerC3], 2⟩

def offerC2 : RideOffer := ⟨1, 1, 1, .SENT, 0, 15000, none⟩

def rideC2 : RideRequest := ⟨1, 5, none, some 0, some 0, .SEARCHING, 1, 5, some 15000⟩

def dbC2 : DB :=
  ⟨[⟨1, .ONLINE, true, some 0, some 0⟩], [rideC2], [offerC2], 2⟩

def offerC10 : RideOffer := ⟨1, 1, 2, .SENT, 0, 15000, none⟩

def dbC10 : DB := ⟨[⟨1, .ONLINE, true, none, none⟩,
  ⟨2, .ONLINE, true, none, none⟩], [], [offerC10], 2⟩

def rideC5 : RideRequest := ⟨1, 2, none, some 0, some 0, .SEARCHING, 1, 5, none⟩

def dbC5 : DB := ⟨[], [rideC5], [], 1⟩


/-!
## Theorems
-/

section Helpers

variable {α β : Type}

theorem updateFirst_cons_pos (p : α → Bool) (g : α → α) (x : α) (xs : List α)
    (h : p x = true) : updateFirst p g (x :: xs) = g x :: xs := by
  simp [updateFirst, h]

theorem updateFirst_cons_neg (p : α → Bool) (g : α → α) (x : α) (xs : List α)
    (h : p x = false) : updateFirst p g (x :: xs) = x :: updateFirst p g xs := by
  simp [updateFirst, h]

theorem find?_cons_pos (p : α → Bool) (x : α) (xs : List α) (h : p x = true) :
    List.find? p (x :: xs) = some x := List.find?_cons_of_pos xs h

theorem find?_cons_neg (p : α → Bool) (x : α) (xs : List α) (h : p x = false) :
    List.find? p (x :: xs) = List.find? p xs :=
  List.find?_cons_of_neg xs (by simp [h])

theorem updateFirst_of_forall_neg {p : α → Bool} {g : α → α} {l : List α}
    (h : ∀ x ∈ l, p x = false) : updateFirst p g l = l := by
  induction l with
  | nil => rfl
  | cons x xs ih =>
    rw [updateFirst_cons_neg p g x xs (h x (List.mem_cons_self x xs)),
      ih (fun y hy => h y (List.mem_cons_of_mem x hy))]

theorem mem_updateFirst {p : α → Bool} {g : α → α} {l : List α} {y : α}
    (hy : y ∈ updateFirst p g l) : y ∈ l ∨ ∃ x ∈ l, p x = true ∧ y = g x := by
  induction l with
  | nil => simp [updateFirst] at hy
  | cons x xs ih =>
    by_cases hx : p x = true
    · rw [updateFirst_cons_pos p g x xs hx] at hy
      rcases List.mem_cons.mp hy with h | h
      · exact Or.inr ⟨x, List.mem_cons_self x xs, hx, h⟩
      · exact Or.inl (List.mem_cons_of_mem x h)
    · rw [updateFirst_cons_neg p g x xs (Bool.eq_false_iff.mpr (fun hc => hx hc))] at hy
      rcases List.mem_cons.mp hy with h | h
      · exact Or.inl (h ▸ List.mem_cons_self x xs)
      · rcases ih h with h2 | ⟨z, hz, hpz, hyz⟩
        · exact Or.inl (List.mem_cons_of_mem x h2)
        · exact Or.inr ⟨z, List.mem_cons_of_mem x hz, hpz, hyz⟩

theorem updateFirst_eq_map_of_nodup (f : α → Nat) (g : α → α) {l : List α}
    (hnd : (l.map f).Nodup) (i : Nat) :
    updateFirst (fun x => decide (f x = i)) g l =
      l.map (fun x => if f x = i then g x else x) := by
  induction l with
  | nil => rfl
  | cons x xs ih =>
    simp only [List.map_cons, List.nodup_cons] at hnd
    by_cases hx : f x = i
    · rw [updateFirst_cons_pos (fun y => decide (f y = i)) g x xs (decide_eq_true hx), List.map_cons, if_pos hx]
      have hxs : ∀ y ∈ xs, ¬(f y = i) := by
        intro y hy hyi
        exact hnd.1 (hx ▸ hyi ▸ List.mem_map_of_mem f hy)
      rw [List.map_congr_left (fun y hy => if_neg (hxs y hy))]
      simp
    · rw [updateFirst_cons_neg (fun y => decide (f y = i)) g x xs (decide_eq_false hx), List.map_cons, if_neg hx, ih hnd.2]

theorem find?_updateFirst_proj (f : α → Nat) (pr : α → β) (g : α → α)
    (hf : ∀ x, f (g x) = f x) (hpr : ∀ x, pr (g x) = pr x) (i j : Nat) (l : List α) :
    ((updateFirst (fun x => decide (f x = i)) g l).find?
        (fun x => decide (f x = j))).map pr =
      (l.find? (fun x => decide (f x = j))).map pr := by
  induction l with
  | nil => rfl
  | cons x xs ih =>
    by_cases hx : f x = i
    · rw [updateFirst_cons_pos (fun y => decide (f y = i)) g x xs (decide_eq_true hx)]
      by_cases hj : f x = j
      · rw [find?_cons_pos (fun y => decide (f y = j)) (g x) xs
            (decide_eq_true (by rw [hf]; exact hj)),
          find?_cons_pos (fun y => decide (f y = j)) x xs (decide_eq_true hj)]
        simp [hpr]
      · rw [find?_cons_neg (fun y => decide (f y = j)) (g x) xs
            (decide_eq_false (by rw [hf]; exact hj)),
          find?_cons_neg (fun y => decide (f y = j)) x xs (decide_eq_false hj)]
    · rw [updateFirst_cons_neg (fun y => decide (f y = i)) g x xs (decide_eq_false hx)]
      by_cases hj : f x = j
      · rw [find?_cons_pos (fun y => decide (f y = j)) x _ (decide_eq_true hj),
          find?_cons_pos (fun y => decide (f y = j)) x xs (decide_eq_true hj)]
      · rw [find?_cons_neg (fun y => decide (f y = j)) x _ (decide_eq_false hj),
          find?_cons_neg (fun y => decide (f y = j)) x xs (decide_eq_false hj)]
        exact ih

theorem find?_updateFirst_same (f : α → Nat) (g : α → α)
    (hf : ∀ x, f (g x) = f x) (i : Nat) {l : List α} {a : α}
    (h : l.find? (fun x => decide (f x = i)) = some a) :
    (updateFirst (fun x => decide (f x = i)) g l).find?
        (fun x => decide (f x = i)) = some (g a) := by
  induction l with
  | nil => simp at h
  | cons x xs ih =>
    by_cases hx : f x = i
    · rw [find?_cons_pos (fun y => decide (f y = i)) x xs (decide_eq_true hx)] at h
      obtain rfl : x = a := Option.some.inj h
      rw [updateFirst_cons_pos (fun y => decide (f y = i)) g x xs (decide_eq_true hx),
        find?_cons_pos (fun y => decide (f y = i)) (g x) xs
          (decide_eq_true (by rw [hf]; exact hx))]
    · rw [find?_cons_neg (fun y => decide (f y = i)) x xs (decide_eq_false hx)] at h
      rw [updateFirst_cons_neg (fun y => decide (f y = i)) g x xs (decide_eq_false hx),
        find?_cons_neg (fun y => decide (f y = i)) x _ (decide_eq_false hx)]
      exact ih h

end Helpers

/-- Claim C3.  For an acceptance call by the offer's own driver: a
non-`SENT` offer yields Conflict with the store unchanged; an offer past
its deadline is marked `EXPIRED` (the only change) and yields Conflict;
a ride that already has a driver yields Conflict unchanged; and a ride in
`FAILED`/`CANCELED`/`COMPLETED` yields Conflict unchanged. -/
theorem acceptOffer_conflict_cases (db : DB) (caller offerId : Nat) (now : Int)
    (offer : RideOffer)
    (hfind : db.offers.find?
      (fun o => decide (o.id = offerId ∧ o.driverId = caller)) = some offer) :
    (offer.status ≠ .SENT → acceptOffer db caller offerId now = (.conflict, db)) ∧
    (offer.status = .SENT → offer.expiresAt ≤ now →
      acceptOffer db caller offerId now =
        (.conflict, { db with offers := (updateFirst (fun o => decide (o.id = offerId))
            (fun o => { o with status := .EXPIRED }) db.offers) })) ∧
    (∀ ride : RideRequest, offer.status = .SENT → now < offer.expiresAt →
      db.rides.find? (fun r => decide (r.id = offer.rideRequestId)) = some ride →
      jsIdTruthy ride.driverId = true →
      acceptOffer db caller offerId now = (.conflict, db)) ∧
    (∀ ride : RideRequest, offer.status = .SENT → now < offer.expiresAt →
      db.rides.find? (fun r => decide (r.id = offer.rideRequestId)) = some ride →
      jsIdTruthy ride.driverId = false → ride.status ∈ rideNotDispatchable →
      acceptOffer db caller offerId now = (.conflict, db)) := by
  refine ⟨?_, ?_, ?_, ?_⟩
  · intro hns
    simp only [acceptOffer, hfind]
    rw [if_pos hns]
  · intro hsent hexp
    simp only [acceptOffer, hfind]
    rw [if_neg (fun hc => hc hsent), if_pos hexp]
  · intro ride hsent hfresh hride htaken
    simp only [acceptOffer, hfind, hride]
    rw [if_neg (fun hc => hc hsent), if_neg (Int.not_le.mpr hfresh), if_pos htaken]
  · intro ride hsent hfresh hride hfree hdisp
    simp only [acceptOffer, hfind, hride]
    rw [if_neg (fun hc => hc hsent), if_neg (Int.not_le.mpr hfresh),
      if_neg (by rw [hfree]; exact Bool.false_ne_true), if_pos hdisp]

/-- Claim C2.  When an acceptance succeeds (the offer is `SENT`, not yet
expired, belongs to the caller, and the ride is unassigned and not in a
terminal status), afterwards: the ride row has status `ACCEPTED`,
`driverId` = caller and a null phase deadline; the accepted offer is
`ACCEPTED` with `acceptedAt` set to now; every other previously `SENT`
offer of the ride is `EXPIRED` (and none is left `SENT`); the caller's
availability is `BUSY`; and the handler returns the updated ride. -/
theorem acceptOffer_success_state (db : DB) (caller offerId : Nat) (now : Int)
    (offer : RideOffer) (ride : RideRequest)
    (hONodup : (db.offers.map (fun o => o.id)).Nodup)
    (hRNodup : (db.rides.map (fun r => r.id)).Nodup)
    (hDNodup : (db.drivers.map (fun d => d.id)).Nodup)
    (hfind : db.offers.find?
      (fun o => decide (o.id = offerId ∧ o.driverId = caller)) = some offer)
    (hsent : offer.status = .SENT)
    (hfresh : now < offer.expiresAt)
    (hride : db.rides.find? (fun r => decide (r.id = offer.rideRequestId)) = some ride)
    (hfree : ride.driverId = none)
    (hdisp : ride.status ∉ rideNotDispatchable)
    (hdrv : db.drivers.any (fun d => decide (d.id = caller)) = true) :
    (∀ r ∈ (acceptOffer db caller offerId now).2.rides, r.id = ride.id →
        r.driverId = some caller ∧ r.status = .ACCEPTED ∧ r.expiresAt = none) ∧
    (∀ o ∈ (acceptOffer db caller offerId now).2.offers, o.id = offerId →
        o.status = .ACCEPTED ∧ o.acceptedAt = some now) ∧
    (∀ o ∈ (acceptOffer db caller offerId now).2.offers,
        o.rideRequestId = ride.id → o.status = .SENT → False) ∧
    (∀ o ∈ db.offers, o.rideRequestId = ride.id → o.id ≠ offerId → o.status = .SENT →
        { o with status := OfferStatus.EXPIRED } ∈ (acceptOffer db caller offerId now).2.offers) ∧
    (∀ d ∈ (acceptOffer db caller offerId now).2.drivers, d.id = caller →
        d.availability = .BUSY ∧ d.isOnline = true) ∧
    (acceptOffer db caller offerId now).1 =
      .accepted (some { ride with
        driverId := some caller,
        status := RideStatus.ACCEPTED,
        expiresAt := none }) := by
  have hkey : ride.id = offer.rideRequestId := by
    have := List.find?_some hride
    simpa using this
  have hride2 : db.rides.find? (fun r => decide (r.id = ride.id)) = some ride := by
    rw [hkey]; exact hride
  have heq : acceptOffer db caller offerId now =
      (.accepted ((updateFirst (fun r => decide (r.id = ride.id))
          (fun r => { r with
            driverId := some caller,
            status := RideStatus.ACCEPTED,
            expiresAt := none }) db.rides).find?
            (fun r => decide (r.id = ride.id))),
        { db with
          rides := (updateFirst (fun r => decide (r.id = ride.id))
            (fun r => { r with
              driverId := some caller,
              status := RideStatus.ACCEPTED,
              expiresAt := none }) db.rides),
          offers := ((updateFirst (fun o => decide (o.id = offerId))
            (fun o => { o with
              status := OfferStatus.ACCEPTED,
              acceptedAt := some now }) db.offers).map (fun o =>
                if o.rideRequestId = ride.id ∧ o.status = OfferStatus.SENT then
                  { o with status := OfferStatus.EXPIRED } else o)),
          drivers := (updateFirst (fun d => decide (d.id = caller))
            (fun d => { d with
              availability := Availability.BUSY,
              isOnline := true }) db.drivers) }) := by
    simp only [acceptOffer, hfind, hride]
    rw [if_neg (fun hc => hc hsent), if_neg (Int.not_le.mpr hfresh),
      if_neg (by rw [hfree]; exact Bool.false_ne_true), if_neg hdisp, if_pos hdrv]
  rw [heq]
  have hridesMap : updateFirst (fun r => decide (r.id = ride.id))
      (fun r => { r with
        driverId := some caller,
        status := RideStatus.ACCEPTED,
        expiresAt := none }) db.rides =
      db.rides.map (fun r => if r.id = ride.id then
        { r with
          driverId := some caller,
          status := RideStatus.ACCEPTED,
          expiresAt := none } else r) :=
    updateFirst_eq_map_of_nodup (fun (r : RideRequest) => r.id) _ hRNodup ride.id
  have hoffersMap : updateFirst (fun o => decide (o.id = offerId))
      (fun o => { o with
        status := OfferStatus.ACCEPTED,
        acceptedAt := some now }) db.offers =
      db.offers.map (fun o => if o.id = offerId then
        { o with
          status := OfferStatus.ACCEPTED,
          acceptedAt := some now } else o) :=
    updateFirst_eq_map_of_nodup (fun (o : RideOffer) => o.id) _ hONodup offerId
  have hdriversMap : updateFirst (fun d => decide (d.id = caller))
      (fun d => { d with
        availability := Availability.BUSY,
        isOnline := true }) db.drivers =
      db.drivers.map (fun d => if d.id = caller then
        { d with
          availability := Availability.BUSY,
          isOnline := true } else d) :=
    updateFirst_eq_map_of_nodup (fun (d : Driver) => d.id) _ hDNodup caller
  refine ⟨?_, ?_, ?_, ?_, ?_, ?_⟩
  · intro r hr hrid
    rw [hridesMap] at hr
    obtain ⟨x, hx, rfl⟩ := List.mem_map.mp hr
    by_cases hxi : x.id = ride.id
    · simp [hxi]
    · rw [if_neg hxi] at hrid ⊢
      exact absurd hrid hxi
  · intro o ho hoid
    rw [hoffersMap, List.map_map] at ho
    obtain ⟨x, hx, rfl⟩ := List.mem_map.mp ho
    by_cases hxi : x.id = offerId
    · simp only [Function.comp_apply, if_pos hxi]
      rw [if_neg (by simp)]
      exact ⟨rfl, rfl⟩
    · exfalso
      simp only [Function.comp_apply, if_neg hxi] at hoid
      by_cases hxr : x.rideRequestId = ride.id ∧ x.status = OfferStatus.SENT
      · rw [if_pos hxr] at hoid
        exact hxi hoid
      · rw [if_neg hxr] at hoid
        exact hxi hoid
  · intro o ho horid hosent
    rw [hoffersMap, List.map_map] at ho
    obtain ⟨x, hx, rfl⟩ := List.mem_map.mp ho
    by_cases hxi : x.id = offerId
    · simp only [Function.comp_apply, if_pos hxi] at horid hosent ⊢
      rw [if_neg (by simp)] at hosent
      simp at hosent
    · simp only [Function.comp_apply, if_neg hxi] at horid hosent
      by_cases hxr : x.rideRequestId = ride.id ∧ x.status = OfferStatus.SENT
      · rw [if_pos hxr] at hosent
        simp at hosent
      · rw [if_neg hxr] at horid hosent
        exact hxr ⟨horid, hosent⟩
  · intro o ho horid hoid hosent
    rw [hoffersMap, List.map_map]
    have hmem := List.mem_map_of_mem
      ((fun (y : RideOffer) =>
          if y.rideRequestId = ride.id ∧ y.status = OfferStatus.SENT then
            { y with status := OfferStatus.EXPIRED } else y) ∘
        (fun (x : RideOffer) =>
          if x.id = offerId then
            { x with
              status := OfferStatus.ACCEPTED,
              acceptedAt := some now } else x)) ho
    simpa only [Function.comp_apply, if_neg hoid,
      if_pos (And.intro horid hosent)] using hmem
  · intro d hd hdid
    rw [hdriversMap] at hd
    obtain ⟨x, hx, rfl⟩ := List.mem_map.mp hd
    by_cases hxi : x.id = caller
    · simp [hxi]
    · rw [if_neg hxi] at hdid ⊢
      exact absurd hdid hxi
  · rw [find?_updateFirst_same (fun (r : RideRequest) => r.id)
      (fun r => { r with
        driverId := some caller,
        status := RideStatus.ACCEPTED,
        expiresAt := none }) (fun x => rfl) ride.id hride2]

theorem allStatusAllowed (s : RideStatus) : s ∈ ALLOWED_RIDE_STATUS := by
  cases s <;> simp [ALLOWED_RIDE_STATUS]

/-- Claim C4, counterexample.  The source's `POST /rides/status` never
checks for a terminal status: on a store whose only ride is `COMPLETED`
and owned by driver 7, that driver's update to `OPEN` succeeds (no
Conflict) and rewrites the ride row, refuting "every subsequent
driver-initiated status update on a terminal ride is rejected with
Conflict and the ride row is unchanged". -/
theorem terminal_ride_overwritten :
    rideC4.status = .COMPLETED ∧
    (ridesStatusUpdate dbC4 7 1 .OPEN).1 =
      .ok (some { rideC4 with status := RideStatus.OPEN }) ∧
    (ridesStatusUpdate dbC4 7 1 .OPEN).2.rides =
      [{ rideC4 with status := RideStatus.OPEN }] ∧
    RideStatus.OPEN ≠ RideStatus.COMPLETED := by decide

/-- Claim C4, amended.  A driver-initiated status update on a ride owned
by the caller succeeds for every requested status - terminal rides
included, since every enum member is whitelisted - overwriting the
status while `driverId` and `expiresAt` keep their values; non-owners
get Forbidden, not Conflict. -/
theorem ridesStatusUpdate_owner_overwrites (db : DB) (caller rideId : Nat)
    (st : RideStatus) (hrid : rideId ≠ 0)
    (hex : ∃ r ∈ db.rides, r.id = rideId ∧ r.driverId = some caller) :
    (∃ rr, (ridesStatusUpdate db caller rideId st).1 = .ok rr) ∧
    (ridesStatusUpdate db caller rideId st).2.rides =
      db.rides.map (fun r => if r.id = rideId ∧ r.driverId = some caller then
        { r with status := st } else r) := by
  have hcount : db.rides.countP
      (fun r => decide (r.id = rideId ∧ r.driverId = some caller)) ≠ 0 := by
    obtain ⟨r, hr, h1, h2⟩ := hex
    have : 0 < db.rides.countP
        (fun r => decide (r.id = rideId ∧ r.driverId = some caller)) :=
      List.countP_pos_iff.mpr ⟨r, hr, by simp [h1, h2]⟩
    omega
  simp only [ridesStatusUpdate]
  rw [if_neg hrid, if_neg (fun hc => hc (allStatusAllowed st)), if_neg hcount]
  exact ⟨⟨_, rfl⟩, rfl⟩

/-- Witness for the amended C4 at a concrete store. -/
theorem ridesStatusUpdate_owner_overwrites_witness :
    (1 : Nat) ≠ 0 ∧
    (∃ r ∈ dbC4.rides, r.id = 1 ∧ r.driverId = some 7) ∧
    ((∃ rr, (ridesStatusUpdate dbC4 7 1 .OPEN).1 = .ok rr) ∧
      (ridesStatusUpdate dbC4 7 1 .OPEN).2.rides =
        dbC4.rides.map (fun r => if r.id = 1 ∧ r.driverId = some 7 then
          { r with status := RideStatus.OPEN } else r)) :=
  ⟨by decide, by decide,
    ridesStatusUpdate_owner_overwrites dbC4 7 1 .OPEN (by decide) (by decide)⟩

/-- Claim C7, counterexample.  Startup performs no reconciliation: for a
store holding a `SEARCHING` ride whose phase deadline (0) is already
past at now = 100 with an expired `SENT` offer, `startup` leaves the
ride `SEARCHING` and the offer un-swept, refuting "on startup every such
ride is reconciled". -/
theorem startup_leaves_stuck_ride :
    rideC7.status = .SEARCHING ∧ rideC7.expiresAt = some 0 ∧ ((0 : Int) ≤ 100) ∧
    (startup dbC7).rides = [rideC7] ∧ (startup dbC7).offers = [offerC7] ∧
    offerC7.status = .SENT ∧ offerC7.expiresAt ≤ 100 := by decide

/-- Claim C7, amended.  The listen callback of the source only logs: on
process startup no ride is advanced, failed or swept - the store is
returned unchanged - so a ride stuck in `SEARCHING` by a crash stays in
`SEARCHING` until some later request or timer mutates it. -/
theorem startup_no_reconciliation (db : DB) :
    (startup db).rides = db.rides ∧ (startup db).offers = db.offers ∧
    (startup db).drivers = db.drivers := ⟨rfl, rfl, rfl⟩

/-- Claim C8.  The availability endpoint performs no BUSY check: a
driver whose availability is `BUSY` can set `OFFLINE`, via the explicit
availability field or the legacy `isOnline = false` flag, and the call
succeeds (HTTP 200) with the row updated - the Conflict required by the
spec (and by invariant I6) is never produced.  This evaluates the code
at the claim's failing input. -/
theorem busy_driver_goes_offline :
    drvC8.availability = .BUSY ∧
    (setAvailability dbC8 1 (some .OFFLINE) none).1 =
      .ok (some ⟨1, .OFFLINE, false, none, none⟩) ∧
    (setAvailability dbC8 1 (some .OFFLINE) none).2.drivers =
      [⟨1, .OFFLINE, false, none, none⟩] ∧
    (setAvailability dbC8 1 none (some false)).1 =
      .ok (some ⟨1, .OFFLINE, false, none, none⟩) := by decide

/-- Claim C6, counterexample.  The candidate query is `availability =
ONLINE OR isOnline = true` (server.js:404), not "exactly the ONLINE
drivers": a driver with availability `BUSY` but the legacy flag
`isOnline = true`, located at the pickup, is selected and receives the
phase's only offer. -/
theorem busy_driver_gets_offer :
    drvC6.availability ≠ .ONLINE ∧
    chosenDrivers distC6 dbC6 rideC6 5 = [drvC6] ∧
    ((createOffersForRide distC6 dbC6 rideC6 5 15 0).1).offers.map
      (fun o => o.driverId) = [1] ∧
    (createOffersForRide distC6 dbC6 rideC6 5 15 0).2.1 = 1 := by decide

theorem createOffersAux_spec (rid : Nat) (sentAt expAt : Int) :
    ∀ (ds : List Driver) (offers : List RideOffer) (next : Nat),
    ∃ news : List RideOffer,
      (createOffersAux rid sentAt expAt ds offers next).1 = offers ++ news ∧
      next ≤ (createOffersAux rid sentAt expAt ds offers next).2.1 ∧
      (∀ o ∈ news, o.status = .SENT ∧ o.rideRequestId = rid ∧ o.sentAt = sentAt ∧
        o.expiresAt = expAt ∧ o.acceptedAt = none ∧
        (∃ d ∈ ds, o.driverId = d.id) ∧
        next ≤ o.id ∧ o.id < (createOffersAux rid sentAt expAt ds offers next).2.1) ∧
      List.Pairwise (· < ·) (news.map (fun o => o.id)) := by
  intro ds
  induction ds with
  | nil =>
    intro offers next
    exact ⟨[], by simp [createOffersAux], Nat.le_refl next, by simp, by simp⟩
  | cons d ds ih =>
    intro offers next
    by_cases hdup : ∃ x ∈ offers, x.rideRequestId = rid ∧ x.driverId = d.id
    · obtain ⟨news, h1, h2, h3, h4⟩ := ih offers next
      refine ⟨news, ?_, ?_, ?_, h4⟩
      · simpa [createOffersAux, hdup] using h1
      · simpa [createOffersAux, hdup] using h2
      · intro o ho
        obtain ⟨p1, p2, p3, p4, p5, ⟨d', hd', hdid⟩, p6, p7⟩ := h3 o ho
        exact ⟨p1, p2, p3, p4, p5, ⟨d', List.mem_cons_of_mem d hd', hdid⟩, p6,
          by simpa [createOffersAux, hdup] using p7⟩
    · obtain ⟨news, h1, h2, h3, h4⟩ :=
        ih (offers ++ [newOffer next rid d.id sentAt expAt]) (next + 1)
      have heval : createOffersAux rid sentAt expAt (d :: ds) offers next =
          ((createOffersAux rid sentAt expAt ds
              (offers ++ [newOffer next rid d.id sentAt expAt]) (next + 1)).1,
            (createOffersAux rid sentAt expAt ds
              (offers ++ [newOffer next rid d.id sentAt expAt]) (next + 1)).2.1,
            (createOffersAux rid sentAt expAt ds
              (offers ++ [newOffer next rid d.id sentAt expAt]) (next + 1)).2.2 + 1) := by
        simp [createOffersAux, hdup]
      refine ⟨newOffer next rid d.id sentAt expAt :: news, ?_, ?_, ?_, ?_⟩
      · rw [heval]
        simp only [h1, List.append_assoc, List.singleton_append]
      · rw [heval]
        dsimp only
        omega
      · intro o ho
        rcases List.mem_cons.mp ho with rfl | ho2
        · refine ⟨rfl, rfl, rfl, rfl, rfl, ⟨d, List.mem_cons_self d ds, rfl⟩,
            Nat.le_refl _, ?_⟩
          rw [heval]
          dsimp only
          have hid : (newOffer next rid d.id sentAt expAt).id = next := rfl
          rw [hid]
          omega
        · obtain ⟨p1, p2, p3, p4, p5, ⟨d', hd', hdid⟩, p6, p7⟩ := h3 o ho2
          refine ⟨p1, p2, p3, p4, p5, ⟨d', List.mem_cons_of_mem d hd', hdid⟩, by omega, ?_⟩
          rw [heval]
          dsimp only
          exact p7
      · rw [List.map_cons, List.pairwise_cons]
        refine ⟨?_, h4⟩
        intro i hi
        obtain ⟨o, ho, rfl⟩ := List.mem_map.mp hi
        have := (h3 o ho).2.2.2.2.2.2.1
        have hid : (newOffer next rid d.id sentAt expAt).id = next := rfl
        rw [hid]
        omega

/-- Claim C6, amended.  For every phase the set of drivers selected is
exactly the drivers with `availability = ONLINE` or `isOnline = true`,
restricted - when the ride has pickup coordinates - to drivers with a
stored location within the phase radius of the pickup (a driver with no
stored location is then excluded); when the ride lacks pickup
coordinates every such driver is selected; and every offer row created
by the phase belongs to a selected driver (duplicates skipped). -/
theorem chosenDrivers_spec (dist : Int → Int → Int → Int → Int) (db : DB)
    (ride : RideRequest) (radiusKm : Int) :
    (∀ d : Driver, d ∈ chosenDrivers dist db ride radiusKm ↔
      d ∈ db.drivers ∧ (d.availability = .ONLINE ∨ d.isOnline = true) ∧
      (∀ plat plng, ride.pickupLat = some plat → ride.pickupLng = some plng →
        ∃ dlat dlng, d.lat = some dlat ∧ d.lng = some dlng ∧
          dist plat plng dlat dlng ≤ radiusKm)) ∧
    (∀ (ttlSeconds now : Int),
      ∀ o ∈ (createOffersForRide dist db ride radiusKm ttlSeconds now).1.offers,
      o ∈ db.offers ∨ ∃ d ∈ chosenDrivers dist db ride radiusKm,
        o.driverId = d.id ∧ o.rideRequestId = ride.id ∧ o.status = .SENT) := by
  constructor
  · intro d
    have hcand : d ∈ candidateDrivers db ↔
        d ∈ db.drivers ∧ (d.availability = .ONLINE ∨ d.isOnline = true) := by
      simp [candidateDrivers, List.mem_filter]
    unfold chosenDrivers
    match hLat : ride.pickupLat, hLng : ride.pickupLng with
    | some plat, some plng =>
      rw [List.mem_filter]
      constructor
      · rintro ⟨hc, hd⟩
        refine ⟨(hcand.mp hc).1, (hcand.mp hc).2, ?_⟩
        intro plat2 plng2 h1 h2
        obtain rfl : plat = plat2 := Option.some.inj h1
        obtain rfl : plng = plng2 := Option.some.inj h2
        match hla : d.lat, hln : d.lng with
        | some dlat, some dlng =>
          rw [hla, hln] at hd
          exact ⟨dlat, dlng, rfl, rfl, by simpa using hd⟩
        | none, _ => rw [hla] at hd; simp at hd
        | some _, none => rw [hla, hln] at hd; simp at hd
      · rintro ⟨hmem, havail, hloc⟩
        obtain ⟨dlat, dlng, hla, hln, hd⟩ := hloc plat plng rfl rfl
        refine ⟨hcand.mpr ⟨hmem, havail⟩, ?_⟩
        rw [hla, hln]
        simpa using hd
    | some plat, none =>
      rw [hcand]
      constructor
      · rintro ⟨h1, h2⟩
        exact ⟨h1, h2, fun plat2 plng2 ha hb => by simp at hb⟩
      · rintro ⟨h1, h2, _⟩
        exact ⟨h1, h2⟩
    | none, _ =>
      rw [hcand]
      constructor
      · rintro ⟨h1, h2⟩
        exact ⟨h1, h2, fun plat2 plng2 ha hb => by simp at ha⟩
      · rintro ⟨h1, h2, _⟩
        exact ⟨h1, h2⟩
  · intro ttlSeconds now o ho
    unfold createOffersForRide at ho
    by_cases hempty : (chosenDrivers dist db ride radiusKm).isEmpty = true
    · rw [if_pos hempty] at ho
      exact Or.inl ho
    · rw [if_neg hempty] at ho
      dsimp only at ho
      obtain ⟨news, h1, h2, h3, h4⟩ := createOffersAux_spec ride.id now (now + ttlSeconds * 1000)
        (chosenDrivers dist db ride radiusKm) db.offers db.nextOfferId
      rw [h1] at ho
      rcases List.mem_append.mp ho with h | h
      · exact Or.inl h
      · obtain ⟨p1, p2, _, _, _, ⟨d, hd, hdid⟩, _, _⟩ := h3 o h
        exact Or.inr ⟨d, hd, hdid, p2, p1⟩

theorem mem_insertBySentAtDesc {o a : RideOffer} {l : List RideOffer} :
    a ∈ insertBySentAtDesc o l ↔ a = o ∨ a ∈ l := by
  induction l with
  | nil => simp [insertBySentAtDesc]
  | cons x xs ih =>
    by_cases hx : x.sentAt < o.sentAt
    · simp [insertBySentAtDesc, if_pos hx]
    · simp only [insertBySentAtDesc, if_neg hx, List.mem_cons, ih]
      tauto

theorem length_insertBySentAtDesc (o : RideOffer) (l : List RideOffer) :
    (insertBySentAtDesc o l).length = l.length + 1 := by
  induction l with
  | nil => rfl
  | cons x xs ih =>
    by_cases hx : x.sentAt < o.sentAt
    · simp [insertBySentAtDesc, if_pos hx]
    · simp [insertBySentAtDesc, if_neg hx, ih]

theorem sorted_insertBySentAtDesc {o : RideOffer} {l : List RideOffer}
    (hl : List.Pairwise (fun a b => b.sentAt ≤ a.sentAt) l) :
    List.Pairwise (fun a b => b.sentAt ≤ a.sentAt) (insertBySentAtDesc o l) := by
  induction l with
  | nil => simp [insertBySentAtDesc]
  | cons x xs ih =>
    rcases List.pairwise_cons.mp hl with ⟨hx1, hx2⟩
    by_cases hx : x.sentAt < o.sentAt
    · rw [insertBySentAtDesc, if_pos hx]
      refine List.pairwise_cons.mpr ⟨?_, hl⟩
      intro b hb
      rcases List.mem_cons.mp hb with rfl | hb2
      · omega
      · have := hx1 b hb2
        omega
    · rw [insertBySentAtDesc, if_neg hx]
      refine List.pairwise_cons.mpr ⟨?_, ih hx2⟩
      intro b hb
      rcases mem_insertBySentAtDesc.mp hb with rfl | hb2
      · omega
      · exact hx1 b hb2

theorem mem_sortBySentAtDesc {a : RideOffer} {l : List RideOffer} :
    a ∈ sortBySentAtDesc l ↔ a ∈ l := by
  induction l with
  | nil => simp [sortBySentAtDesc]
  | cons x xs ih =>
    simp [sortBySentAtDesc, mem_insertBySentAtDesc, ih]

theorem length_sortBySentAtDesc (l : List RideOffer) :
    (sortBySentAtDesc l).length = l.length := by
  induction l with
  | nil => rfl
  | cons x xs ih =>
    simp [sortBySentAtDesc, length_insertBySentAtDesc, ih]

theorem sorted_sortBySentAtDesc (l : List RideOffer) :
    List.Pairwise (fun a b => b.sentAt ≤ a.sentAt) (sortBySentAtDesc l) := by
  induction l with
  | nil => simp [sortBySentAtDesc]
  | cons x xs ih => exact sorted_insertBySentAtDesc ih

theorem sweep_filter_active (d : Nat) (now : Int) (l : List RideOffer) :
    (l.map (fun o => if o.driverId = d ∧ o.status = .SENT ∧ o.expiresAt ≤ now then
      { o with status := OfferStatus.EXPIRED } else o)).filter
        (fun o => decide (o.driverId = d ∧ o.status = .SENT ∧ now < o.expiresAt)) =
    l.filter (fun o => decide (o.driverId = d ∧ o.status = .SENT ∧ now < o.expiresAt)) := by
  induction l with
  | nil => rfl
  | cons x xs ih =>
    rw [List.map_cons, List.filter_cons, List.filter_cons]
    by_cases hp : x.driverId = d ∧ x.status = .SENT ∧ now < x.expiresAt
    · have hswept : ¬(x.driverId = d ∧ x.status = .SENT ∧ x.expiresAt ≤ now) := by
        rintro ⟨_, _, hle⟩
        omega
      rw [if_neg hswept, if_pos (by simpa using hp), if_pos (by simpa using hp), ih]
    · by_cases hs : x.driverId = d ∧ x.status = .SENT ∧ x.expiresAt ≤ now
      · rw [if_pos hs]
        have : ¬(({ x with status := OfferStatus.EXPIRED } : RideOffer).driverId = d ∧
            ({ x with status := OfferStatus.EXPIRED } : RideOffer).status = .SENT ∧
            now < ({ x with status := OfferStatus.EXPIRED } : RideOffer).expiresAt) := by
          rintro ⟨_, hsent, _⟩
          simp at hsent
        rw [if_neg (by simp only [decide_eq_true_eq]; exact this), if_neg (by simpa using hp), ih]
      · rw [if_neg hs, if_neg (by simpa using hp), if_neg (by simpa using hp), ih]

/-- Claim C9.  The active-offers query first expires the caller's `SENT`
offers whose deadline has passed, then returns only the caller's `SENT`
offers with `expiresAt > now`, newest `sentAt` first, at most 20 - and
all of them whenever at most 20 qualify. -/
theorem driversOffers_spec (db : DB) (d : Nat) (now : Int) :
    (∀ o ∈ db.offers, o.driverId = d → o.status = .SENT → o.expiresAt ≤ now →
      { o with status := OfferStatus.EXPIRED } ∈ (driversOffers db d now).2.offers) ∧
    (∀ o ∈ (driversOffers db d now).1,
      o ∈ db.offers ∧ o.driverId = d ∧ o.status = .SENT ∧ now < o.expiresAt) ∧
    ((driversOffers db d now).1.length ≤ 20) ∧
    List.Pairwise (fun a b => b.sentAt ≤ a.sentAt) (driversOffers db d now).1 ∧
    ((db.offers.filter (fun o =>
        decide (o.driverId = d ∧ o.status = .SENT ∧ now < o.expiresAt))).length ≤ 20 →
      ∀ o ∈ db.offers, o.driverId = d → o.status = .SENT → now < o.expiresAt →
        o ∈ (driversOffers db d now).1) := by
  have hfilter := sweep_filter_active d now db.offers
  refine ⟨?_, ?_, ?_, ?_, ?_⟩
  · intro o ho h1 h2 h3
    have hmem := List.mem_map_of_mem (fun o =>
      if o.driverId = d ∧ o.status = .SENT ∧ o.expiresAt ≤ now then
        { o with status := OfferStatus.EXPIRED } else o) ho
    dsimp only at hmem
    rw [if_pos ⟨h1, h2, h3⟩] at hmem
    exact hmem
  · intro o ho
    have h1 : o ∈ (sortBySentAtDesc ((sweepDriverOffers db d now).offers.filter
        (fun o => decide (o.driverId = d ∧ o.status = .SENT ∧ now < o.expiresAt)))) :=
      List.take_subset 20 _ ho
    have h2 := mem_sortBySentAtDesc.mp h1
    rw [show (sweepDriverOffers db d now).offers = db.offers.map
        (fun o => if o.driverId = d ∧ o.status = .SENT ∧ o.expiresAt ≤ now then
          { o with status := OfferStatus.EXPIRED } else o) from rfl, hfilter] at h2
    have h3 := List.mem_filter.mp h2
    refine ⟨h3.1, ?_⟩
    simpa using h3.2
  · have : ((driversOffers db d now).1).length =
        min 20 (sortBySentAtDesc ((sweepDriverOffers db d now).offers.filter
          (fun o => decide (o.driverId = d ∧ o.status = .SENT ∧ now < o.expiresAt)))).length :=
      List.length_take 20 _
    omega
  · exact List.Pairwise.sublist (List.take_sublist 20 _) (sorted_sortBySentAtDesc _)
  · intro hlen o ho h1 h2 h3
    have hmemf : o ∈ db.offers.filter
        (fun o => decide (o.driverId = d ∧ o.status = .SENT ∧ now < o.expiresAt)) :=
      List.mem_filter.mpr ⟨ho, by simp [h1, h2, h3]⟩
    have heq : (sweepDriverOffers db d now).offers.filter
        (fun o => decide (o.driverId = d ∧ o.status = .SENT ∧ now < o.expiresAt)) =
        db.offers.filter
          (fun o => decide (o.driverId = d ∧ o.status = .SENT ∧ now < o.expiresAt)) := hfilter
    have hlen2 : (sortBySentAtDesc ((sweepDriverOffers db d now).offers.filter
        (fun o => decide (o.driverId = d ∧ o.status = .SENT ∧ now < o.expiresAt)))).length ≤ 20 := by
      rw [length_sortBySentAtDesc, heq]
      exact hlen
    show o ∈ (sortBySentAtDesc _).take 20
    rw [List.take_of_length_le hlen2, mem_sortBySentAtDesc, heq]
    exact hmemf

/-- Claim C5.  The matcher phase parameters are radius 5 km / TTL 15 s
for phase 1, 5 km / 7 s for phase 2 and 10 km / 12 s for phase 3; and
when a live phase creates zero offers, `runPhase` proceeds immediately
(no timer) to the next phase if the phase is below 3, and at phase 3
marks the ride `FAILED` with a null phase deadline and stops. -/
theorem runPhase_zero_offers (dist : Int → Int → Int → Int → Int) (db : DB)
    (rid phase : Nat) (now : Int) (ride : RideRequest) (res : DB × Nat × Int)
    (hfind : (expireOldOffers db rid now).rides.find?
      (fun r => decide (r.id = rid)) = some ride)
    (hlive : ¬(jsIdTruthy ride.driverId = true ∨ ride.status ∈ donePhaseStatuses))
    (hres : createOffersForRide dist (writeRidePhase (expireOldOffers db rid now) rid phase)
      ride (phaseParams phase).1 (phaseParams phase).2 now = res)
    (hcount : res.2.1 = 0) :
    phaseParams 1 = (5, 15) ∧ phaseParams 2 = (5, 7) ∧ phaseParams 3 = (10, 12) ∧
    (phase < 3 → runPhase dist db rid phase now = runPhase dist res.1 rid (phase + 1) now) ∧
    (phase = 3 → runPhase dist db rid phase now = failRide res.1 rid) ∧
    (∀ r : RideRequest, res.1.rides.find? (fun r => decide (r.id = rid)) = some r →
      (failRide res.1 rid).rides.find? (fun x => decide (x.id = rid)) =
        some { r with status := RideStatus.FAILED, expiresAt := none }) := by
  refine ⟨by decide, by decide, by decide, ?_, ?_, ?_⟩
  · intro hlt
    rw [runPhase]
    simp only [hfind, hres]
    rw [if_neg hlive, if_pos hcount, dif_pos hlt]
  · intro h3
    subst h3
    rw [runPhase]
    simp only [hfind, hres]
    rw [if_neg hlive, if_pos hcount, dif_neg (by omega)]
  · intro r hr
    exact find?_updateFirst_same (fun (x : RideRequest) => x.id)
      (fun x => { x with status := RideStatus.FAILED, expiresAt := none })
      (fun x => rfl) rid hr

theorem find?_updateFirst_ne {α : Type} (f : α → Nat) (g : α → α)
    (hf : ∀ x, f (g x) = f x) (i j : Nat) (hij : j ≠ i) (l : List α) :
    (updateFirst (fun x => decide (f x = i)) g l).find? (fun x => decide (f x = j)) =
      l.find? (fun x => decide (f x = j)) := by
  induction l with
  | nil => rfl
  | cons x xs ih =>
    by_cases hx : f x = i
    · rw [updateFirst_cons_pos (fun y => decide (f y = i)) g x xs (decide_eq_true hx)]
      have hxj : ¬(f x = j) := fun hc => hij (by rw [← hc, hx])
      rw [find?_cons_neg (fun y => decide (f y = j)) (g x) xs
          (decide_eq_false (by rw [hf]; exact hxj)),
        find?_cons_neg (fun y => decide (f y = j)) x xs (decide_eq_false hxj)]
    · rw [updateFirst_cons_neg (fun y => decide (f y = i)) g x xs (decide_eq_false hx)]
      by_cases hj : f x = j
      · rw [find?_cons_pos (fun y => decide (f y = j)) x _ (decide_eq_true hj),
          find?_cons_pos (fun y => decide (f y = j)) x xs (decide_eq_true hj)]
      · rw [find?_cons_neg (fun y => decide (f y = j)) x _ (decide_eq_false hj),
          find?_cons_neg (fun y => decide (f y = j)) x xs (decide_eq_false hj)]
        exact ih

theorem countP_key_le_one {α : Type} (f : α → Nat) {l : List α} (hnd : (l.map f).Nodup) (i : Nat) :
    l.countP (fun x => decide (f x = i)) ≤ 1 := by
  induction l with
  | nil => simp
  | cons x xs ih =>
    simp only [List.map_cons, List.nodup_cons] at hnd
    by_cases hx : f x = i
    · have hzero : xs.countP (fun y => decide (f y = i)) = 0 := by
        rw [List.countP_eq_zero]
        intro a ha
        simp only [decide_eq_true_eq]
        intro hai
        exact hnd.1 (hx ▸ hai ▸ List.mem_map_of_mem f ha)
      rw [List.countP_cons]
      simp [hx, hzero]
    · rw [List.countP_cons]
      simp only [hx, decide_eq_true_eq]
      have := ih hnd.2
      simp [hx]
      omega

theorem DispatchInv_map_offers (db : DB) (F : RideOffer → RideOffer)
    (hid : ∀ o, (F o).id = o.id)
    (hacc : ∀ o, (F o).status = .ACCEPTED → F o = o)
    (h : DispatchInv db) : DispatchInv { db with offers := db.offers.map F } := by
  obtain ⟨⟨hnd, hbound⟩, htaken, hcount⟩ := h
  refine ⟨⟨?_, ?_⟩, ?_, ?_⟩
  · have : (db.offers.map F).map (fun o => o.id) = db.offers.map (fun o => o.id) := by
      rw [List.map_map]
      exact List.map_congr_left fun o _ => hid o
    rw [this]
    exact hnd
  · intro o ho
    obtain ⟨x, hx, rfl⟩ := List.mem_map.mp ho
    rw [hid]
    exact hbound x hx
  · intro o ho hoacc
    obtain ⟨x, hx, rfl⟩ := List.mem_map.mp ho
    have hFx : F x = x := hacc x hoacc
    rw [hFx]
    rw [hFx] at hoacc
    exact htaken x hx hoacc
  · intro rid
    unfold acceptedForRide at hcount ⊢
    rw [List.countP_map]
    refine le_trans (List.countP_mono_left ?_) (hcount rid)
    intro x hx hpx
    simp only [Function.comp_apply, decide_eq_true_eq] at hpx
    simp only [decide_eq_true_eq]
    obtain ⟨h1, h2⟩ := hpx
    have hFx : F x = x := hacc x h2
    rw [hFx] at h1 h2
    exact ⟨h1, h2⟩

theorem DispatchInv_updateRides (db : DB) (i : Nat) (g : RideRequest → RideRequest)
    (hgid : ∀ r, (g r).id = r.id)
    (hgdr : ∀ r, (g r).driverId = r.driverId)
    (h : DispatchInv db) :
    DispatchInv { db with rides := (updateFirst (fun r => decide (r.id = i)) g db.rides) } := by
  obtain ⟨hwf, htaken, hcount⟩ := h
  refine ⟨hwf, ?_, hcount⟩
  intro o ho hoacc
  intro r hr
  have hproj := find?_updateFirst_proj (fun (r : RideRequest) => r.id)
    (fun (r : RideRequest) => r.driverId) g hgid hgdr i o.rideRequestId db.rides
  rw [hr] at hproj
  match hfind : db.rides.find? (fun x => decide (x.id = o.rideRequestId)) with
  | none =>
    rw [hfind] at hproj
    exact Option.noConfusion hproj
  | some r0 =>
    rw [hfind] at hproj
    have : r.driverId = r0.driverId := Option.some.inj hproj
    rw [this]
    exact htaken o ho hoacc r0 hfind

theorem DispatchInv_expireOldOffers (db : DB) (rid : Nat) (now : Int)
    (h : DispatchInv db) : DispatchInv (expireOldOffers db rid now) := by
  unfold expireOldOffers
  refine DispatchInv_map_offers db _ ?_ ?_ h
  · intro o
    dsimp only
    split <;> rfl
  · intro o
    dsimp only
    split
    · intro hc
      simp at hc
    · intro _
      rfl

theorem DispatchInv_sweepDriverOffers (db : DB) (d : Nat) (now : Int)
    (h : DispatchInv db) : DispatchInv (sweepDriverOffers db d now) := by
  unfold sweepDriverOffers
  refine DispatchInv_map_offers db _ ?_ ?_ h
  · intro o
    dsimp only
    split <;> rfl
  · intro o
    dsimp only
    split
    · intro hc
      simp at hc
    · intro _
      rfl

theorem DispatchInv_createOffersForRide (dist : Int → Int → Int → Int → Int) (db : DB)
    (ride : RideRequest) (radiusKm ttlSeconds now : Int)
    (h : DispatchInv db) :
    DispatchInv (createOffersForRide dist db ride radiusKm ttlSeconds now).1 := by
  unfold createOffersForRide
  by_cases hempty : (chosenDrivers dist db ride radiusKm).isEmpty = true
  · rw [if_pos hempty]
    exact h
  · rw [if_neg hempty]
    dsimp only
    obtain ⟨news, h1, h2, h3, h4⟩ := createOffersAux_spec ride.id now (now + ttlSeconds * 1000)
      (chosenDrivers dist db ride radiusKm) db.offers db.nextOfferId
    obtain ⟨⟨hnd, hbound⟩, htaken, hcount⟩ := h
    have hmid : DispatchInv
        { db with
          offers := (createOffersAux ride.id now (now + ttlSeconds * 1000)
            (chosenDrivers dist db ride radiusKm) db.offers db.nextOfferId).1,
          nextOfferId := (createOffersAux ride.id now (now + ttlSeconds * 1000)
            (chosenDrivers dist db ride radiusKm) db.offers db.nextOfferId).2.1 } := by
      refine ⟨⟨?_, ?_⟩, ?_, ?_⟩
      · rw [h1, List.map_append]
        rw [List.nodup_append]
        refine ⟨hnd, ?_, ?_⟩
        · exact h4.imp fun hlt => Nat.ne_of_lt hlt
        · intro a ha hb
          obtain ⟨oa, hoa, ha2⟩ := List.mem_map.mp ha
          obtain ⟨ob, hob, hb2⟩ := List.mem_map.mp hb
          have hc1 := hbound oa hoa
          have hc2 := (h3 ob hob).2.2.2.2.2.2.1
          omega
      · intro o ho
        dsimp only at ho ⊢
        rw [h1] at ho
        rcases List.mem_append.mp ho with hmem | hmem
        · have := hbound o hmem
          omega
        · exact (h3 o hmem).2.2.2.2.2.2.2
      · intro o ho hoacc
        rw [h1] at ho
        rcases List.mem_append.mp ho with hmem | hmem
        · exact htaken o hmem hoacc
        · have := (h3 o hmem).1
          rw [this] at hoacc
          cases hoacc
      · intro rid2
        unfold acceptedForRide
        rw [h1, List.countP_append]
        have hzero : news.countP
            (fun o => decide (o.rideRequestId = rid2 ∧ o.status = .ACCEPTED)) = 0 := by
          rw [List.countP_eq_zero]
          intro o ho
          have := (h3 o ho).1
          simp [this]
        rw [hzero]
        have := hcount rid2
        unfold acceptedForRide at this
        omega
    have := DispatchInv_updateRides _ ride.id
      (fun x => { x with
        status := RideStatus.SEARCHING,
        searchRadiusKm := radiusKm,
        expiresAt := some (now + ttlSeconds * 1000) })
      (fun r => rfl) (fun r => rfl) hmid
    exact this

theorem DispatchInv_runPhase_fuel (dist : Int → Int → Int → Int → Int) :
    ∀ (k : Nat) (phase : Nat), 3 - phase ≤ k →
    ∀ (db : DB) (rid : Nat) (now : Int), DispatchInv db →
      DispatchInv (runPhase dist db rid phase now) := by
  intro k
  induction k with
  | zero =>
    intro phase hk db rid now h
    rw [runPhase]
    have hsweep := DispatchInv_expireOldOffers db rid now h
    cases hfind : (expireOldOffers db rid now).rides.find?
        (fun r => decide (r.id = rid)) with
    | none =>
      simp only [hfind]
      exact hsweep
    | some ride =>
      simp only [hfind]
      by_cases hdone : jsIdTruthy ride.driverId = true ∨ ride.status ∈ donePhaseStatuses
      · rw [if_pos hdone]
        exact hsweep
      · rw [if_neg hdone]
        have hwrite := DispatchInv_updateRides (expireOldOffers db rid now) rid
          (fun r => { r with phase := phase }) (fun r => rfl) (fun r => rfl) hsweep
        have hoffers := DispatchInv_createOffersForRide dist
          (writeRidePhase (expireOldOffers db rid now) rid phase) ride
          (phaseParams phase).1 (phaseParams phase).2 now hwrite
        by_cases hzero : (createOffersForRide dist
            (writeRidePhase (expireOldOffers db rid now) rid phase) ride
            (phaseParams phase).1 (phaseParams phase).2 now).2.1 = 0
        · rw [if_pos hzero]
          have hge : ¬(phase < 3) := by omega
          rw [dif_neg hge]
          exact DispatchInv_updateRides _ rid
            (fun r => { r with status := RideStatus.FAILED, expiresAt := none })
            (fun r => rfl) (fun r => rfl) hoffers
        · rw [if_neg hzero]
          exact hoffers
  | succ k ih =>
    intro phase hk db rid now h
    rw [runPhase]
    have hsweep := DispatchInv_expireOldOffers db rid now h
    cases hfind : (expireOldOffers db rid now).rides.find?
        (fun r => decide (r.id = rid)) with
    | none =>
      simp only [hfind]
      exact hsweep
    | some ride =>
      simp only [hfind]
      by_cases hdone : jsIdTruthy ride.driverId = true ∨ ride.status ∈ donePhaseStatuses
      · rw [if_pos hdone]
        exact hsweep
      · rw [if_neg hdone]
        have hwrite := DispatchInv_updateRides (expireOldOffers db rid now) rid
          (fun r => { r with phase := phase }) (fun r => rfl) (fun r => rfl) hsweep
        have hoffers := DispatchInv_createOffersForRide dist
          (writeRidePhase (expireOldOffers db rid now) rid phase) ride
          (phaseParams phase).1 (phaseParams phase).2 now hwrite
        by_cases hzero : (createOffersForRide dist
            (writeRidePhase (expireOldOffers db rid now) rid phase) ride
            (phaseParams phase).1 (phaseParams phase).2 now).2.1 = 0
        · rw [if_pos hzero]
          by_cases hlt : phase < 3
          · rw [dif_pos hlt]
            exact ih (phase + 1) (by omega) _ rid now hoffers
          · rw [dif_neg hlt]
            exact DispatchInv_updateRides _ rid
              (fun r => { r with status := RideStatus.FAILED, expiresAt := none })
              (fun r => rfl) (fun r => rfl) hoffers
        · rw [if_neg hzero]
          exact hoffers

theorem DispatchInv_runPhase (dist : Int → Int → Int → Int → Int) (db : DB)
    (rid phase : Nat) (now : Int) (h : DispatchInv db) :
    DispatchInv (runPhase dist db rid phase now) :=
  DispatchInv_runPhase_fuel dist 3 phase (by omega) db rid now h

theorem DispatchInv_phaseTimeout (dist : Int → Int → Int → Int → Int) (db : DB)
    (rid phase : Nat) (now : Int) (h : DispatchInv db) :
    DispatchInv (phaseTimeout dist db rid phase now) := by
  unfold phaseTimeout
  have hsweep := DispatchInv_expireOldOffers db rid now h
  cases hfind : (expireOldOffers db rid now).rides.find?
      (fun r => decide (r.id = rid)) with
  | none =>
    simp only [hfind]
    exact hsweep
  | some latest =>
    simp only [hfind]
    by_cases hdone : jsIdTruthy latest.driverId = true ∨ latest.status ∈ timeoutDoneStatuses
    · rw [if_pos hdone]
      exact hsweep
    · rw [if_neg hdone]
      by_cases hlt : phase < 3
      · rw [if_pos hlt]
        exact DispatchInv_runPhase dist _ rid (phase + 1) now hsweep
      · rw [if_neg hlt]
        exact DispatchInv_updateRides _ rid
          (fun r => { r with status := RideStatus.FAILED, expiresAt := none })
          (fun r => rfl) (fun r => rfl) hsweep

theorem DispatchInv_acceptOffer (db : DB) (caller offerId : Nat) (now : Int)
    (hcaller : caller ≠ 0) (h : DispatchInv db) :
    DispatchInv (acceptOffer db caller offerId now).2 := by
  obtain ⟨⟨hnd, hbound⟩, htaken, hcount⟩ := h
  unfold acceptOffer
  cases hfind : db.offers.find?
      (fun o => decide (o.id = offerId ∧ o.driverId = caller)) with
  | none =>
    simp only [hfind]
    exact ⟨⟨hnd, hbound⟩, htaken, hcount⟩
  | some offer =>
    simp only [hfind]
    by_cases hsent : offer.status ≠ .SENT
    · rw [if_pos hsent]
      exact ⟨⟨hnd, hbound⟩, htaken, hcount⟩
    · rw [if_neg hsent]
      by_cases hexp : offer.expiresAt ≤ now
      · rw [if_pos hexp]
        dsimp only
        rw [updateFirst_eq_map_of_nodup (fun (o : RideOffer) => o.id)
          (fun o => { o with status := OfferStatus.EXPIRED }) hnd offerId]
        refine DispatchInv_map_offers db _ ?_ ?_ ⟨⟨hnd, hbound⟩, htaken, hcount⟩
        · intro o
          dsimp only
          split <;> rfl
        · intro o
          dsimp only
          split
          · intro hc
            simp at hc
          · intro _
            rfl
      · rw [if_neg hexp]
        cases hride : db.rides.find?
            (fun r => decide (r.id = offer.rideRequestId)) with
        | none =>
          simp only [hride]
          exact ⟨⟨hnd, hbound⟩, htaken, hcount⟩
        | some ride =>
          simp only [hride]
          by_cases htak : jsIdTruthy ride.driverId = true
          · rw [if_pos htak]
            exact ⟨⟨hnd, hbound⟩, htaken, hcount⟩
          · rw [if_neg htak]
            by_cases hdisp : ride.status ∈ rideNotDispatchable
            · rw [if_pos hdisp]
              exact ⟨⟨hnd, hbound⟩, htaken, hcount⟩
            · rw [if_neg hdisp]
              by_cases hdrv : (db.drivers.any fun d => decide (d.id = caller)) = true
              · rw [if_pos hdrv]
                dsimp only
                have hpred := List.find?_some hfind
                simp only [decide_eq_true_eq] at hpred
                obtain ⟨hoid, hodrv⟩ := hpred
                have hoffmem : offer ∈ db.offers := List.mem_of_find?_eq_some hfind
                have hkey : ride.id = offer.rideRequestId := by
                  have := List.find?_some hride
                  simpa using this
                have hride2 : db.rides.find?
                    (fun x => decide (x.id = ride.id)) = some ride := by
                  rw [hkey]
                  exact hride
                have hnoacc : ∀ o ∈ db.offers, o.rideRequestId = ride.id →
                    o.status ≠ OfferStatus.ACCEPTED := by
                  intro o ho hr hacc
                  have htk := htaken o ho hacc ride (by rw [hr]; exact hride2)
                  exact htak htk
                rw [updateFirst_eq_map_of_nodup (fun (o : RideOffer) => o.id)
                  (fun o => { o with
                    status := OfferStatus.ACCEPTED,
                    acceptedAt := some now }) hnd offerId, List.map_map]
                refine ⟨⟨?_, ?_⟩, ?_, ?_⟩
                · dsimp only
                  have : (db.offers.map ((fun o =>
                      if o.rideRequestId = ride.id ∧ o.status = OfferStatus.SENT then
                        { o with status := OfferStatus.EXPIRED } else o) ∘
                      (fun o => if o.id = offerId then
                        { o with
                          status := OfferStatus.ACCEPTED,
                          acceptedAt := some now } else o))).map (fun o => o.id) =
                      db.offers.map (fun o => o.id) := by
                    rw [List.map_map]
                    refine List.map_congr_left fun o _ => ?_
                    dsimp only [Function.comp]
                    by_cases h1 : o.id = offerId
                    · rw [if_pos h1]
                      split <;> simp [h1]
                    · rw [if_neg h1]
                      split <;> simp
                  rw [this]
                  exact hnd
                · intro o ho
                  dsimp only at ho ⊢
                  obtain ⟨x, hx, rfl⟩ := List.mem_map.mp ho
                  dsimp only [Function.comp]
                  have hb := hbound x hx
                  by_cases h1 : x.id = offerId
                  · rw [if_pos h1]
                    split <;> simpa [h1] using hb
                  · rw [if_neg h1]
                    split <;> simpa using hb
                · intro o ho hoacc
                  dsimp only at ho
                  obtain ⟨x, hx, rfl⟩ := List.mem_map.mp ho
                  simp only [Function.comp_apply] at hoacc ⊢
                  by_cases h1 : x.id = offerId
                  · have hxoffer : x = offer :=
                      List.inj_on_of_nodup_map hnd hx hoffmem (by rw [h1, hoid])
                    have hxkey : x.rideRequestId = ride.id := by
                      rw [hxoffer, ← hkey]
                    rw [if_pos h1, if_neg (by simp)] at hoacc ⊢
                    intro r hr
                    dsimp only at hr
                    rw [hxkey] at hr
                    rw [find?_updateFirst_same (fun (r : RideRequest) => r.id)
                      (fun r => { r with
                        driverId := some caller,
                        status := RideStatus.ACCEPTED,
                        expiresAt := none }) (fun r => rfl) ride.id hride2] at hr
                    obtain heq2 := Option.some.inj hr
                    rw [← heq2]
                    simp [jsIdTruthy, hcaller]
                  · rw [if_neg h1] at hoacc ⊢
                    by_cases h2 : x.rideRequestId = ride.id ∧ x.status = OfferStatus.SENT
                    · rw [if_pos h2] at hoacc
                      simp at hoacc
                    · rw [if_neg h2] at hoacc ⊢
                      have hxr : x.rideRequestId ≠ ride.id := by
                        intro hc
                        exact hnoacc x hx hc hoacc
                      intro r hr
                      dsimp only at hr
                      rw [find?_updateFirst_ne (fun (r : RideRequest) => r.id)
                        (fun r => { r with
                          driverId := some caller,
                          status := RideStatus.ACCEPTED,
                          expiresAt := none }) (fun r => rfl) ride.id
                        x.rideRequestId hxr db.rides] at hr
                      exact htaken x hx hoacc r hr
                · intro rid2
                  dsimp only
                  unfold acceptedForRide
                  rw [List.countP_map]
                  by_cases hr2 : rid2 = ride.id
                  · subst hr2
                    refine le_trans (List.countP_mono_left ?_)
                      (countP_key_le_one (fun (o : RideOffer) => o.id) hnd offerId)
                    intro x hx hp
                    simp only [Function.comp_apply, decide_eq_true_eq] at hp ⊢
                    by_cases h1 : x.id = offerId
                    · exact h1
                    · exfalso
                      rw [if_neg h1] at hp
                      by_cases h2 : x.rideRequestId = ride.id ∧ x.status = OfferStatus.SENT
                      · rw [if_pos h2] at hp
                        rcases hp with ⟨_, hc⟩
                        simp at hc
                      · rw [if_neg h2] at hp
                        exact hnoacc x hx hp.1 hp.2
                  · refine le_trans (List.countP_mono_left ?_) (hcount rid2)
                    intro x hx hp
                    simp only [Function.comp_apply, decide_eq_true_eq] at hp ⊢
                    by_cases h1 : x.id = offerId
                    · exfalso
                      have hxoffer : x = offer :=
                        List.inj_on_of_nodup_map hnd hx hoffmem (by rw [h1, hoid])
                      have hxkey : x.rideRequestId = ride.id := by
                        rw [hxoffer, ← hkey]
                      rw [if_pos h1, if_neg (by simp)] at hp
                      exact hr2 (by rw [← hp.1]; exact hxkey)
                    · rw [if_neg h1] at hp
                      by_cases h2 : x.rideRequestId = ride.id ∧ x.status = OfferStatus.SENT
                      · rw [if_pos h2] at hp
                        rcases hp with ⟨_, hc⟩
                        simp at hc
                      · rw [if_neg h2] at hp
                        exact hp
              · rw [if_neg hdrv]
                exact ⟨⟨hnd, hbound⟩, htaken, hcount⟩

theorem DispatchInv_step (dist : Int → Int → Int → Int → Int) (db : DB) (op : Op)
    (h : DispatchInv db) : DispatchInv (step dist db op) := by
  cases op with
  | sweep rid now => exact DispatchInv_expireOldOffers db rid now h
  | poll d now => exact DispatchInv_sweepDriverOffers db d now h
  | phase rid p now => exact DispatchInv_runPhase dist db rid p now h
  | timeout rid p now => exact DispatchInv_phaseTimeout dist db rid p now h
  | accept d oid now =>
    by_cases hd : d = 0
    · simp only [step, if_pos hd]
      exact h
    · simp only [step, if_neg hd]
      exact DispatchInv_acceptOffer db d oid now hd h

theorem DispatchInv_run (dist : Int → Int → Int → Int → Int) (db : DB) (ops : List Op)
    (h : DispatchInv db) : DispatchInv (run dist db ops) := by
  induction ops generalizing db with
  | nil => exact h
  | cons op ops ih => exact ih (step dist db op) (DispatchInv_step dist db op h)

/-- Claim C1.  For every ride request and every sequence of dispatch
operations (offer-creating phases, expiration sweeps, offer polls and
authenticated offer acceptances) started from a store satisfying the
dispatch invariant, at most one `RideOffer` of that ride has status
`ACCEPTED`: the acceptance transaction accepts only when the ride's
`driverId` (the spec's `assignedDriverId`) is unset and expires every
other `SENT` offer of the ride in the same transaction, which `DispatchInv`
captures and every `step` preserves. -/
theorem accepted_offer_unique (dist : Int → Int → Int → Int → Int) (init : DB)
    (ops : List Op) (hInv : DispatchInv init) (rid : Nat) :
    acceptedForRide (run dist init ops).offers rid ≤ 1 :=
  (DispatchInv_run dist init ops hInv).2.2 rid

/-- Witness for C1 at a concrete store and operation list. -/
theorem accepted_offer_unique_witness :
    DispatchInv dbW ∧ acceptedForRide (run distW dbW opsW).offers 1 ≤ 1 :=
  ⟨⟨⟨by decide, by decide⟩, fun o ho => absurd ho (List.not_mem_nil o),
      fun r => by simp [acceptedForRide, dbW]⟩,
    accepted_offer_unique distW dbW opsW
      ⟨⟨by decide, by decide⟩, fun o ho => absurd ho (List.not_mem_nil o),
        fun r => by simp [acceptedForRide, dbW]⟩ 1⟩

/-- Witness for C3 at a concrete store. -/
theorem acceptOffer_conflict_cases_witness :
    dbC3.offers.find? (fun o => decide (o.id = 1 ∧ o.driverId = 1)) = some offerC3 ∧
    offerC3.status ≠ OfferStatus.SENT ∧
    acceptOffer dbC3 1 1 5 = (.conflict, dbC3) :=
  ⟨by decide, by decide,
    (acceptOffer_conflict_cases dbC3 1 1 5 offerC3 (by decide)).1 (by decide)⟩

/-- Witness for C2 at a concrete store. -/
theorem acceptOffer_success_state_witness :
    offerC2.status = .SENT ∧ rideC2.driverId = none ∧ ((500 : Int) < offerC2.expiresAt) ∧
    (acceptOffer dbC2 1 1 500).1 =
      .accepted (some { rideC2 with
        driverId := some 1,
        status := RideStatus.ACCEPTED,
        expiresAt := none }) :=
  ⟨by decide, by decide, by decide,
    (acceptOffer_success_state dbC2 1 1 500 offerC2 rideC2 (by decide) (by decide)
      (by decide) (by decide) (by decide) (by decide) (by decide) (by decide)
      (by decide) (by decide)).2.2.2.2.2⟩

/-- Claim C10.  When the offer id does not resolve together with the
caller's driver id - the offer does not exist or belongs to a different
driver - the acceptance returns NotFound with the store unchanged, the
very same outcome as for an absent offer id, so the caller cannot
distinguish another driver's offer from a missing one. -/
theorem acceptOffer_wrong_driver (db : DB) (caller offerId : Nat) (now : Int)
    (h : ∀ o ∈ db.offers, o.id = offerId → o.driverId ≠ caller) :
    acceptOffer db caller offerId now = (.notFound, db) := by
  have hfind : db.offers.find?
      (fun o => decide (o.id = offerId ∧ o.driverId = caller)) = none := by
    rw [List.find?_eq_none]
    intro o ho
    simp only [decide_eq_true_eq, not_and]
    exact h o ho
  unfold acceptOffer
  rw [hfind]

/-- Witness for C10 at a concrete store. -/
theorem acceptOffer_wrong_driver_witness :
    (∀ o ∈ dbC10.offers, o.id = 1 → o.driverId ≠ 1) ∧
    acceptOffer dbC10 1 1 5 = (.notFound, dbC10) :=
  ⟨by decide, acceptOffer_wrong_driver dbC10 1 1 5 (by decide)⟩

/-- Witness for C5 at a concrete store with no drivers. -/
theorem runPhase_zero_offers_witness :
    (expireOldOffers dbC5 1 0).rides.find? (fun r => decide (r.id = 1)) = some rideC5 ∧
    ¬(jsIdTruthy rideC5.driverId = true ∨ rideC5.status ∈ donePhaseStatuses) ∧
    (phaseParams 1 = (5, 15) ∧ phaseParams 2 = (5, 7) ∧ phaseParams 3 = (10, 12)) :=
  ⟨by decide, by decide,
    let h := runPhase_zero_offers distW dbC5 1 1 0 rideC5 _ (by decide) (by decide)
      rfl (by decide)
    ⟨h.1, h.2.1, h.2.2.1⟩⟩
